import Mathlib

/-!
Verification of the `module` package of github.com/radeksimko/mod
(`src/module/module.go`).

Embedding conventions:

* A Go string is embedded as a `List Char` (`GoStr`).  Go strings are byte
  sequences, but every function verified here either rejects strings that are
  not valid UTF-8 (`checkPath` via `utf8.ValidString`) or rejects any byte
  above the ASCII range before using it (`escapeString`, `unescapeString`),
  and `for … range` loops in Go iterate over decoded runes.  The embedding
  therefore works with the decoded rune sequence; its strings are exactly the
  valid-UTF-8 Go strings, on which `utf8.ValidString` is identically true.
  UTF-8 byte order agrees with code-point order, so byte-wise comparisons of
  valid strings agree with the `List Char` lexicographic comparisons used
  here.
* Functions returning `error` are embedded with `Except E Unit` (or
  `Except E GoStr`), where `E` is an inductive type with one constructor per
  `fmt.Errorf` site, carrying the verbatim arguments of the format string.
* `unicode.IsLetter` from the Go standard library (reached only through
  `fileNameOK` on characters above the ASCII range) is embedded exactly on
  the Latin-1 range, which the Go implementation special-cases through its
  `properties` table; for code points above U+00FF the implementation
  consults the full Unicode letter tables, which this embedding keeps as an
  explicit parameter `uniLetter` threaded through the definitions.  Every
  theorem below either quantifies over `uniLetter` or evaluates only
  characters at or below U+00FF, where the embedding is exact.
-/

/-- A Go string, as its sequence of decoded runes. -/
abbrev GoStr := List Char

/-- Coercion from a Lean string literal to a `GoStr`. -/
def str (s : String) : GoStr := s.toList

/-- Whether `c` is an ASCII decimal digit, `'0' <= c && c <= '9'` in Go. -/
def isDigitCh (c : Char) : Bool := decide ('0' ≤ c ∧ c ≤ '9')

/-- `strings.Contains hay needle`: `needle` occurs as a contiguous substring. -/
def hasSubstr (needle : GoStr) : GoStr → Bool
  | [] => needle.isPrefixOf []
  | c :: t => needle.isPrefixOf (c :: t) || hasSubstr needle t

/-- Split a string at every occurrence of the separator `sep`; models the
`elemStart` loop of `checkPath` (and, for `'.'`, `strings.Split` on dots).
The result is always non-empty and the input is the `sep`-intercalation of
the result. -/
def splitOnChar (sep : Char) : GoStr → List GoStr
  | [] => [[]]
  | c :: t =>
    if c = sep then [] :: splitOnChar sep t
    else List.modifyHead (fun e => c :: e) (splitOnChar sep t)

/-- Lowercase an ASCII uppercase letter: `byte(r + 'a' - 'A')` in Go. -/
def lowerCh (c : Char) : Char := Char.ofNat (c.toNat + 32)

/-- Uppercase an ASCII lowercase letter: `byte(r + 'A' - 'a')` in Go. -/
def upperCh (c : Char) : Char := Char.ofNat (c.toNat - 32)

/-- Whether `c` is an ASCII uppercase letter, `'A' <= r && r <= 'Z'` in Go. -/
def isUpperCh (c : Char) : Bool := decide ('A' ≤ c ∧ c ≤ 'Z')

/-- Case-fold an ASCII character to lower case. -/
def foldCh (c : Char) : Char := if isUpperCh c then lowerCh c else c

/-- `strings.EqualFold a b` as used in `checkElem`: the general function
folds runes pairwise through Unicode simple-fold cycles; both here and in the
source it is only ever applied with `a` drawn from `badWindowsNames`, whose
characters (`A C L M N O P R T U X` and digits) have no fold partners beyond
their ASCII upper/lower pairs, so on these arguments `strings.EqualFold`
coincides with ASCII case-insensitive equality. -/
def asciiEqualFold (a b : GoStr) : Bool := a.map foldCh == b.map foldCh

/-- `firstPathOK` (module.go:154): characters allowed in the first element of
a module path. -/
def firstPathOK (r : Char) : Bool :=
  r == '-' || r == '.' ||
    decide ('0' ≤ r ∧ r ≤ '9') ||
    decide ('a' ≤ r ∧ r ≤ 'z')

/-- `pathOK` (module.go:165): characters allowed in an import path element.
`utf8.RuneSelf` is 0x80. -/
def pathOK (r : Char) : Bool :=
  if r.toNat < 0x80 then
    r == '+' || r == '-' || r == '.' || r == '_' || r == '~' ||
      decide ('0' ≤ r ∧ r ≤ '9') ||
      decide ('A' ≤ r ∧ r ≤ 'Z') ||
      decide ('a' ≤ r ∧ r ≤ 'z')
  else false

/-- `unicode.IsLetter` restricted to the Latin-1 range (exact: the category-L
code points at or below U+00FF are the ASCII letters, U+00AA, U+00B5, U+00BA,
U+00C0–U+00D6, U+00D8–U+00F6 and U+00F8–U+00FF). -/
def latin1IsLetter (c : Char) : Bool :=
  isUpperCh c || decide ('a' ≤ c ∧ c ≤ 'z') ||
    c.toNat == 0xAA || c.toNat == 0xB5 || c.toNat == 0xBA ||
    decide (0xC0 ≤ c.toNat ∧ c.toNat ≤ 0xD6) ||
    decide (0xD8 ≤ c.toNat ∧ c.toNat ≤ 0xF6) ||
    decide (0xF8 ≤ c.toNat ∧ c.toNat ≤ 0xFF)

/-- `fileNameOK` (module.go:180): characters allowed in a file-name element.
For runes at or below 0x7F: ASCII alphanumerics plus the punctuation list
`allowed`; above, `unicode.IsLetter` (see the note at the top of the file on
the `uniLetter` parameter). -/
def fileNameOK (uniLetter : Char → Bool) (r : Char) : Bool :=
  if r.toNat < 0x80 then
    decide ('0' ≤ r ∧ r ≤ '9') || decide ('A' ≤ r ∧ r ≤ 'Z') ||
        decide ('a' ≤ r ∧ r ≤ 'z') ||
      (str "!#$%&()+,-.=@[]^_\x7b\x7d~ ").contains r
  else if r.toNat ≤ 0xFF then latin1IsLetter r else uniLetter r

/-- `badWindowsNames` (module.go:363): reserved Windows file-name elements. -/
def badWindowsNames : List GoStr :=
  [str "CON", str "PRN", str "AUX", str "NUL",
   str "COM1", str "COM2", str "COM3", str "COM4", str "COM5",
   str "COM6", str "COM7", str "COM8", str "COM9",
   str "LPT1", str "LPT2", str "LPT3", str "LPT4", str "LPT5",
   str "LPT6", str "LPT7", str "LPT8", str "LPT9"]

/-- Error vocabulary of `checkPath`/`checkElem`, one constructor per
`fmt.Errorf` site (module.go:272-340).  The `invalidUTF8` case of the source
cannot arise in this embedding (see the note on `GoStr`). -/
inductive PathErr where
  | emptyString
  | doubleDot
  | doubleSlash
  | trailingSlash
  | emptyElem
  | dotsOnlyElem (elem : GoStr)
  | leadingDot
  | trailingDot
  | invalidChar (r : Char)
  | windowsBad (short : GoStr)
deriving DecidableEq

/-- `checkElem` (module.go:305): validity of an individual path element.
`strings.Count(elem, ".") == len(elem)` holds exactly when every rune of the
element is a dot, which the embedding states over the rune sequence. -/
def checkElem (uniLetter : Char → Bool) (elem : GoStr) (fileName : Bool) :
    Except PathErr Unit :=
  if elem = [] then .error .emptyElem
  else if elem.count '.' = elem.length then .error (.dotsOnlyElem elem)
  else if (elem.head? == some '.') && !fileName then .error .leadingDot
  else if elem.getLast? == some '.' then .error .trailingDot
  else
    match elem.find?
        (fun r => !(if fileName then fileNameOK uniLetter r else pathOK r)) with
    | some r => .error (.invalidChar r)
    | none =>
      let short := elem.takeWhile (fun c => !(c == '.'))
      match badWindowsNames.find? (fun bad => asciiEqualFold bad short) with
      | some _ => .error (.windowsBad short)
      | none => .ok ()

/-- The element loop of `checkPath` (module.go:288-299): check every
slash-separated element in order, returning the first error. -/
def checkElems (uniLetter : Char → Bool) :
    List GoStr → Bool → Except PathErr Unit
  | [], _ => .ok ()
  | e :: es, fileName =>
    match checkElem uniLetter e fileName with
    | .error err => .error err
    | .ok _ => checkElems uniLetter es fileName

/-- `checkPath` (module.go:272): generic path validity.  The leading
`utf8.ValidString` test is identically true on this embedding's strings. -/
def checkPath (uniLetter : Char → Bool) (path : GoStr) (fileName : Bool) :
    Except PathErr Unit :=
  if path = [] then .error .emptyString
  else if hasSubstr (str "..") path then .error .doubleDot
  else if hasSubstr (str "//") path then .error .doubleSlash
  else if path.getLast? == some '/' then .error .trailingSlash
  else checkElems uniLetter (splitOnChar '/' path) fileName

/-- Error of `CheckImportPath` (module.go:261). -/
inductive ImportErr where
  | malformed (path : GoStr) (e : PathErr)
deriving DecidableEq

/-- `CheckImportPath` (module.go:259). -/
def CheckImportPath (uniLetter : Char → Bool) (path : GoStr) :
    Except ImportErr Unit :=
  match checkPath uniLetter path false with
  | .error e => .error (.malformed path e)
  | .ok _ => .ok ()

/-- `splitGopkgIn` (module.go:419): the gopkg.in dialect of
`SplitPathVersion`.  The scan position `i` of the source is represented by
splitting the reversed path (after dropping a trailing `-unstable` marker)
into its maximal digit run and the remainder. -/
def splitGopkgIn (path : GoStr) : GoStr × GoStr × Bool :=
  if !((str "gopkg.in/").isPrefixOf path) then (path, [], false)
  else
    let unst := (str "-unstable").isSuffixOf path
    let rp1 := if unst then path.reverse.drop 9 else path.reverse
    let run := rp1.takeWhile isDigitCh
    let rest := rp1.dropWhile isDigitCh
    match rest with
    | 'v' :: '.' :: rest2 =>
      let pathMajor :=
        '.' :: 'v' :: run.reverse ++ (if unst then str "-unstable" else [])
      if pathMajor.length ≤ 2 ||
          ((pathMajor.get? 2 == some '0') && !(pathMajor == str ".v0")) then
        (path, [], false)
      else (rest2.reverse, pathMajor, true)
    | _ => (path, [], false)

/-- `SplitPathVersion` (module.go:395).  The backward scan over digits and
dots is the split of the reversed path into its maximal digit-or-dot run and
the remainder; `i == len(path)` corresponds to the run being empty, and
`i <= 1 || path[i-1] != 'v' || path[i-2] != '/'` to the remainder not
starting with `'v'` then `'/'`. -/
def SplitPathVersion (path : GoStr) : GoStr × GoStr × Bool :=
  if (str "gopkg.in/").isPrefixOf path then splitGopkgIn path
  else
    let rp := path.reverse
    let run := rp.takeWhile (fun c => isDigitCh c || c == '.')
    let rest := rp.dropWhile (fun c => isDigitCh c || c == '.')
    match rest with
    | 'v' :: '/' :: rest2 =>
      if run.isEmpty then (path, [], true)
      else
        let pathMajor := '/' :: 'v' :: run.reverse
        if run.contains '.' || pathMajor.length ≤ 2 ||
            (pathMajor.get? 2 == some '0') || pathMajor == str "/v1" then
          (path, [], false)
        else (rest2.reverse, pathMajor, true)
    | _ => (path, [], true)

/-- Error of `CheckPath` (module.go:216), one constructor per
`fmt.Errorf` site. -/
inductive ModPathErr where
  | malformed (path : GoStr) (e : PathErr)
  | leadingSlash (path : GoStr)
  | missingDot (path : GoStr)
  | leadingDash (path : GoStr)
  | badFirstChar (path : GoStr) (r : Char)
  | invalidVersion (path : GoStr)
deriving DecidableEq

/-- `CheckPath` (module.go:216): module path validity.  `path[:i]` with `i`
the first slash (or the whole string) is the leading element. -/
def CheckPath (uniLetter : Char → Bool) (path : GoStr) :
    Except ModPathErr Unit :=
  match checkPath uniLetter path false with
  | .error e => .error (.malformed path e)
  | .ok _ =>
    let firstElem := path.takeWhile (fun c => !(c == '/'))
    if firstElem = [] then .error (.leadingSlash path)
    else if !(firstElem.contains '.') then .error (.missingDot path)
    else if path.head? == some '-' then .error (.leadingDash path)
    else
      match firstElem.find? (fun r => !(firstPathOK r)) with
      | some r => .error (.badFirstChar path r)
      | none =>
        if (SplitPathVersion path).2.2 then .ok ()
        else .error (.invalidVersion path)

example : SplitPathVersion (str "example.com/pkg/v2") =
    (str "example.com/pkg", str "/v2", true) := by decide
example : SplitPathVersion (str "example.com/pkg/v1") =
    (str "example.com/pkg/v1", [], false) := by decide
example : SplitPathVersion (str "example.com/pkg") =
    (str "example.com/pkg", [], true) := by decide
example : SplitPathVersion (str "example.com/pkg/v") =
    (str "example.com/pkg/v", [], true) := by decide
example : SplitPathVersion (str "gopkg.in/yaml.v2") =
    (str "gopkg.in/yaml", str ".v2", true) := by decide
example : SplitPathVersion (str "gopkg.in/yaml.v") =
    (str "gopkg.in/yaml.v", [], false) := by decide
example : SplitPathVersion (str "gopkg.in/x.v1-unstable") =
    (str "gopkg.in/x", str ".v1-unstable", true) := by decide
example : SplitPathVersion (str "gopkg.in/x.v-unstable") =
    (str "gopkg.in/x", str ".v-unstable", true) := by decide
example : (CheckPath (fun _ => false) (str "example.com/pkg")).isOk = true := by decide
example : (CheckImportPath (fun _ => false) (str "a/../b")).isOk = false := by decide
example : (CheckPath (fun _ => false) (str "Example.com/pkg")).isOk = false := by decide

/-- Go string comparison `a < b`: lexicographic on the rune sequence (equal
to byte-wise comparison on valid UTF-8). -/
def lexLt : GoStr → GoStr → Bool
  | [], [] => false
  | [], _ :: _ => true
  | _ :: _, [] => false
  | a :: as', b :: bs' => if a < b then true else if a = b then lexLt as' bs' else false

instance {ε α : Type} [DecidableEq ε] [DecidableEq α] : DecidableEq (Except ε α) := fun
  | .ok a, .ok b => decidable_of_iff (a = b) (by simp)
  | .error a, .error b => decidable_of_iff (a = b) (by simp)
  | .ok _, .error _ => .isFalse (by simp)
  | .error _, .ok _ => .isFalse (by simp)

/-- Alphanumeric-or-hyphen character of a semantic-version identifier. -/
def semIdentCh (c : Char) : Bool :=
  decide ('0' ≤ c ∧ c ≤ '9') || decide ('A' ≤ c ∧ c ≤ 'Z') ||
    decide ('a' ≤ c ∧ c ≤ 'z') || c == '-'

/-- A non-empty all-digit string with no leading zero (except "0" itself). -/
def numIdentOK (s : GoStr) : Bool :=
  !s.isEmpty && s.all isDigitCh && (s.head? != some '0' || s.length == 1)

/-- Numeric value of a digit string. -/
def natOfDigits (s : GoStr) : Nat :=
  s.foldl (fun n c => n * 10 + (c.toNat - 48)) 0

/-- Split at the first occurrence of `sep`: the part before it, and the part
after it (`none` when `sep` does not occur). -/
def splitFirst (sep : Char) : GoStr → GoStr × Option GoStr
  | [] => ([], none)
  | c :: t =>
    if c = sep then ([], some t)
    else
      let (a, b) := splitFirst sep t
      (c :: a, b)

/-- Modelled from the spec: the semantic-version collaborator (spec section 6;
the repository's `semver` package is not under `src/`).  A parsed semantic
version `vMAJOR.MINOR.PATCH[-PRERELEASE][+BUILD]`: numeric triple, optional
dot-separated pre-release identifiers, optional dot-separated build
identifiers. -/
structure SemVer where
  major : Nat
  minor : Nat
  patch : Nat
  pre : Option (List GoStr)
  build : Option (List GoStr)
deriving DecidableEq

/-- Modelled from the spec: validity of one pre-release identifier
(non-empty, alphanumeric or hyphen, numeric identifiers without leading
zeros). -/
def preIdentOK (s : GoStr) : Bool :=
  !s.isEmpty && s.all semIdentCh && (!s.all isDigitCh || numIdentOK s)

/-- Modelled from the spec: validity of one build identifier (non-empty,
alphanumeric or hyphen). -/
def buildIdentOK (s : GoStr) : Bool :=
  !s.isEmpty && s.all semIdentCh

/-- Modelled from the spec: parser of the semantic-version collaborator
(spec section 6 lists `isValidSemver`, `major`, `buildMetadata`, `compare`).
The version must begin with `v`; the build part starts at the first `+`, the
pre-release part at the first `-` before it; the rest must be a dotted
numeric triple. -/
def semverParse (v : GoStr) : Option SemVer :=
  match v with
  | 'v' :: rest =>
    let (beforePlus, buildPart) := splitFirst '+' rest
    let (mainPart, prePart) := splitFirst '-' beforePlus
    match splitOnChar '.' mainPart with
    | [ma, mi, pa] =>
      if numIdentOK ma && numIdentOK mi && numIdentOK pa &&
          (match prePart with
           | none => true
           | some p => (splitOnChar '.' p).all preIdentOK) &&
          (match buildPart with
           | none => true
           | some b => (splitOnChar '.' b).all buildIdentOK) then
        some ⟨natOfDigits ma, natOfDigits mi, natOfDigits pa,
          (prePart.map (splitOnChar '.')), (buildPart.map (splitOnChar '.'))⟩
      else none
    | _ => none
  | _ => none

/-- Modelled from the spec: `semver.IsValid`. -/
def semverIsValid (v : GoStr) : Bool := (semverParse v).isSome

/-- Modelled from the spec: `semver.Major`, e.g. `"v2"`; the empty string on
an invalid version. -/
def semverMajor (v : GoStr) : GoStr :=
  match semverParse v with
  | some s => 'v' :: Nat.toDigits 10 s.major
  | none => []

/-- Intercalate identifiers with dots (inverse of `splitOnChar '.'` on the
identifier lists produced by `semverParse`). -/
def joinDots : List GoStr → GoStr
  | [] => []
  | [x] => x
  | x :: y :: t => x ++ '.' :: joinDots (y :: t)

/-- Modelled from the spec: `semver.Build`, e.g. `"+incompatible"`; the empty
string when there is no build metadata or the version is invalid. -/
def semverBuild (v : GoStr) : GoStr :=
  match semverParse v with
  | some s =>
    match s.build with
    | some ids => '+' :: joinDots ids
    | none => []
  | none => []

/-- Three-way comparison of naturals as an `Int` in `{-1, 0, 1}`. -/
def cmp3 (a b : Nat) : Int := if a < b then -1 else if a = b then 0 else 1

/-- Modelled from the spec: precedence comparison of two pre-release
identifiers — numeric identifiers compare numerically and are lower than
alphanumeric ones, alphanumeric ones compare in code-point order. -/
def cmpPreIdent (a b : GoStr) : Int :=
  if a.all isDigitCh then
    if b.all isDigitCh then cmp3 (natOfDigits a) (natOfDigits b) else -1
  else if b.all isDigitCh then 1
  else if a = b then 0 else if lexLt a b then -1 else 1

/-- Modelled from the spec: precedence comparison of pre-release identifier
lists — pairwise, a shorter list preceding any extension of it. -/
def cmpPreList : List GoStr → List GoStr → Int
  | [], [] => 0
  | [], _ :: _ => -1
  | _ :: _, [] => 1
  | a :: as', b :: bs' =>
    let c := cmpPreIdent a b
    if c = 0 then cmpPreList as' bs' else c

/-- Modelled from the spec: `semver.Compare` — semantic-version precedence:
numeric triple, then pre-release (a version without one is higher), build
metadata ignored; an invalid version sorts below every valid one and equal
to any other invalid one. -/
def semverCompare (a b : GoStr) : Int :=
  match semverParse a, semverParse b with
  | none, none => 0
  | none, some _ => -1
  | some _, none => 1
  | some x, some y =>
    let c := cmp3 x.major y.major
    if c ≠ 0 then c else
    let c := cmp3 x.minor y.minor
    if c ≠ 0 then c else
    let c := cmp3 x.patch y.patch
    if c ≠ 0 then c else
    match x.pre, y.pre with
    | none, none => 0
    | none, some _ => 1
    | some _, none => -1
    | some p, some q => cmpPreList p q

/-- `MatchPathMajor` (module.go:443): whether semantic version `v` matches
the path major version `pathMajor`. -/
def MatchPathMajor (v pathMajor : GoStr) : Bool :=
  let pathMajor :=
    if (str ".v").isPrefixOf pathMajor &&
        (str "-unstable").isSuffixOf pathMajor then
      pathMajor.take (pathMajor.length - 9)
    else pathMajor
  if (str "v0.0.0-").isPrefixOf v && pathMajor == str ".v1" then true
  else
    let m := semverMajor v
    if pathMajor = [] then
      m == str "v0" || m == str "v1" || semverBuild v == str "+incompatible"
    else
      (pathMajor.head? == some '/' || pathMajor.head? == some '.') &&
        m == pathMajor.tail

/-- Error of `Check` (module.go:131): the forwarded `CheckPath` error, the
malformed-semver error, or the mismatch error carrying the expected major
version exactly as rendered at module.go:140-146. -/
inductive CheckErr where
  | pathError (e : ModPathErr)
  | malformedVersion (version : GoStr)
  | mismatch (path version want : GoStr)
deriving DecidableEq

/-- The expected-major string rendered into the mismatch error of `Check`
(module.go:140-145): `"v0 or v1"` for an empty suffix, and the suffix with a
leading dot stripped otherwise. -/
def wantMajor (pathMajor : GoStr) : GoStr :=
  let want := if pathMajor = [] then str "v0 or v1" else pathMajor
  if want.head? == some '.' then want.tail else want

/-- `Check` (module.go:131): a module path, version pair is valid.  The
rendering of the expected major version on a mismatch (module.go:140-145) is
factored out as `wantMajor`. -/
def Check (uniLetter : Char → Bool) (path version : GoStr) :
    Except CheckErr Unit :=
  match CheckPath uniLetter path with
  | .error e => .error (.pathError e)
  | .ok _ =>
    if !(semverIsValid version) then .error (.malformedVersion version)
    else
      let pathMajor := (SplitPathVersion path).2.1
      if !(MatchPathMajor version pathMajor) then
        .error (.mismatch path version (wantMajor pathMajor))
      else .ok ()

example : semverIsValid (str "v1.0.0") = true := by decide
example : semverIsValid (str "v3.0.0+incompatible") = true := by decide
example : semverIsValid (str "v1.0") = false := by decide
example : semverMajor (str "v3.0.0+incompatible") = str "v3" := by decide
example : semverBuild (str "v3.0.0+incompatible") = str "+incompatible" := by decide
example : semverCompare (str "v1.0.0+a") (str "v1.0.0+b") = 0 := by decide
example : semverCompare (str "v1.0.0-alpha") (str "v1.0.0") = -1 := by decide
example : semverCompare (str "v1.2.0") (str "v1.10.0") = -1 := by decide
example : (Check (fun _ => false) (str "example.com/pkg/v2") (str "v2.0.0")).isOk = true := by decide
example : (Check (fun _ => false) (str "example.com/pkg") (str "v1.0.0")).isOk = true := by decide
example : (Check (fun _ => false) (str "example.com/pkg") (str "v3.0.0")).isOk = false := by decide
example : (Check (fun _ => false) (str "example.com/pkg") (str "v3.0.0+incompatible")).isOk = true := by decide
example : Check (fun _ => false) (str "example.com/pkg") (str "v3.0.0") =
    .error (.mismatch (str "example.com/pkg") (str "v3.0.0") (str "v0 or v1")) := by decide
example : Check (fun _ => false) (str "example.com/pkg/v2") (str "v1.0.0") =
    .error (.mismatch (str "example.com/pkg/v2") (str "v1.0.0") (str "/v2")) := by decide
example : MatchPathMajor (str "v0.0.0-20161208181325") (str ".v1") = true := by decide

/-- Error of `escapeString` (module.go:525): the internal-inconsistency
report for a `!` or a non-ASCII rune in an input that should already have
been validated. -/
inductive EscStrErr where
  | internalError
deriving DecidableEq

/-- The escaping loop of `escapeString` (module.go:536-543): every ASCII
uppercase letter becomes `!` followed by its lowercase equivalent. -/
def escLoop : GoStr → GoStr
  | [] => []
  | r :: t => if isUpperCh r then '!' :: lowerCh r :: escLoop t else r :: escLoop t

/-- `escapeString` (module.go:519): fail on `!` or any rune at or above
`utf8.RuneSelf`; return the input unchanged when it has no uppercase letter,
and the rewritten buffer otherwise. -/
def escapeString (s : GoStr) : Except EscStrErr GoStr :=
  if s.any (fun r => r == '!' || decide (0x80 ≤ r.toNat)) then
    .error .internalError
  else if !(s.any isUpperCh) then .ok s
  else .ok (escLoop s)

/-- The scanning loop of `unescapeString` (module.go:578-599), with the
`bang` flag made an explicit argument: after a `!` only a lowercase ASCII
letter may follow (uppercased into the buffer); a bare uppercase letter, a
non-ASCII rune, or a trailing `!` is an error. -/
def unescLoop : GoStr → Bool → Option GoStr
  | [], bang => if bang then none else some []
  | r :: t, bang =>
    if 0x80 ≤ r.toNat then none
    else if bang then
      if decide (r < 'a') || decide ('z' < r) then none
      else (unescLoop t false).map (fun buf => upperCh r :: buf)
    else if r == '!' then unescLoop t true
    else if isUpperCh r then none
    else (unescLoop t false).map (fun buf => r :: buf)

/-- `unescapeString` (module.go:575). -/
def unescapeString (escaped : GoStr) : Option GoStr := unescLoop escaped false

/-- `EscapePath` (module.go:501): `CheckPath`, then `escapeString`. -/
def EscapePath (uniLetter : Char → Bool) (path : GoStr) :
    Except (ModPathErr ⊕ EscStrErr) GoStr :=
  match CheckPath uniLetter path with
  | .error e => .error (.inl e)
  | .ok _ =>
    match escapeString path with
    | .error e => .error (.inr e)
    | .ok esc => .ok esc

/-- Error of `EscapeVersion` (module.go:514): the `disallowed version string`
report (which swallows the `checkElem` error), or the forwarded
`escapeString` error. -/
inductive EscVersionErr where
  | disallowed (v : GoStr)
  | internal (e : EscStrErr)
deriving DecidableEq

/-- `EscapeVersion` (module.go:512): the version must pass
`checkElem(v, fileName=true)` and contain no `!`; then `escapeString`. -/
def EscapeVersion (uniLetter : Char → Bool) (v : GoStr) :
    Except EscVersionErr GoStr :=
  if !(checkElem uniLetter v true).isOk || v.contains '!' then
    .error (.disallowed v)
  else
    match escapeString v with
    | .error e => .error (.internal e)
    | .ok esc => .ok esc

/-- Error of `UnescapePath` (module.go:552-555). -/
inductive UnescPathErr where
  | invalidEscaped (escaped : GoStr)
  | invalidPath (escaped : GoStr) (e : ModPathErr)
deriving DecidableEq

/-- `UnescapePath` (module.go:549): structural unescaping, then `CheckPath`
on the result. -/
def UnescapePath (uniLetter : Char → Bool) (escaped : GoStr) :
    Except UnescPathErr GoStr :=
  match unescapeString escaped with
  | none => .error (.invalidEscaped escaped)
  | some path =>
    match CheckPath uniLetter path with
    | .error e => .error (.invalidPath escaped e)
    | .ok _ => .ok path

/-- Error of `UnescapeVersion` (module.go:567-570). -/
inductive UnescVersionErr where
  | invalidEscaped (escaped : GoStr)
  | invalidVersion (v : GoStr) (e : PathErr)
deriving DecidableEq

/-- `UnescapeVersion` (module.go:564): structural unescaping, then
`checkElem(v, fileName=true)` on the result. -/
def UnescapeVersion (uniLetter : Char → Bool) (escaped : GoStr) :
    Except UnescVersionErr GoStr :=
  match unescapeString escaped with
  | none => .error (.invalidEscaped escaped)
  | some v =>
    match checkElem uniLetter v true with
    | .error e => .error (.invalidVersion v e)
    | .ok _ => .ok v

/-- `module.Version` (module.go:110): a module path, version pair.  The
fields are `Path` and `Version` in the source; the second is named `Ver`
here because in Lean the field name would collide with the type name. -/
structure Version where
  Path : GoStr
  Ver : GoStr
deriving DecidableEq

/-- Split a version at the first `/`, like module.go:486-491:
`v[:k], v[k:]` when `/` occurs at `k`, else the whole string and `""`. -/
def splitVersionFile (v : GoStr) : GoStr × GoStr :=
  match splitFirst '/' v with
  | (a, none) => (a, [])
  | (a, some b) => (a, '/' :: b)

/-- The comparison closure passed to `sort.Slice` in `Sort`
(module.go:474-496): by path, then by the semver part of the version, then
by the trailing file tag. -/
def sortLess (mi mj : Version) : Bool :=
  if !(mi.Path == mj.Path) then lexLt mi.Path mj.Path
  else
    let (vi, fi) := splitVersionFile mi.Ver
    let (vj, fj) := splitVersionFile mj.Ver
    if !(vi == vj) then decide (semverCompare vi vj < 0)
    else lexLt fi fj

example : EscapePath (fun _ => false) (str "github.com/Azure/azure-sdk-for-go") =
    .ok (str "github.com/!azure/azure-sdk-for-go") := by decide
example : EscapePath (fun _ => false) (str "github.com/Sirupsen/logrus") =
    .ok (str "github.com/!sirupsen/logrus") := by decide
example : UnescapePath (fun _ => false) (str "github.com/!azure/azure-sdk-for-go") =
    .ok (str "github.com/Azure/azure-sdk-for-go") := by decide
example : EscapeVersion (fun _ => false) (str "v1.0.0-Alpha") =
    .ok (str "v1.0.0-!alpha") := by decide
example : UnescapeVersion (fun _ => false) (str "v1.0.0-!alpha") =
    .ok (str "v1.0.0-Alpha") := by decide
example : (checkElem (fun _ => false) (str "é") true).isOk = true := by decide
example : EscapeVersion (fun _ => false) (str "é") =
    .error (.internal .internalError) := by decide
example : unescapeString (str "a!!b") = none := by decide
example : unescapeString (str "a!") = none := by decide
example : unescapeString (str "aB") = none := by decide
example : sortLess ⟨str "a", str "v1.0.0+x/go.mod"⟩ ⟨str "a", str "v1.0.0+y/az.mod"⟩ = false := by decide
example : sortLess ⟨str "a", str "v1.0.0/a"⟩ ⟨str "a", str "v1.0.0/b"⟩ = true := by decide
example : sortLess ⟨str "a", str "v1.2.0/z"⟩ ⟨str "a", str "v1.10.0/a"⟩ = true := by decide

/-- A trivial instantiation of the `uniLetter` parameter, used only to state
closed concrete evaluations.  Every concrete string used with it stays within
Latin-1, where letterhood is decided by `latin1IsLetter` and the parameter is
never consulted, so any instantiation yields the same values. -/
def noUniLetter : Char → Bool := fun _ => false

theorem charLe_iff {a b : Char} : a ≤ b ↔ a.toNat ≤ b.toNat := by
  rw [Char.le_def, UInt32.le_def, BitVec.le_def]
  rfl

theorem charLt_iff {a b : Char} : a < b ↔ a.toNat < b.toNat := by
  rw [Char.lt_def, UInt32.lt_def, BitVec.lt_def]
  rfl

theorem toNat_ofNat_valid (n : Nat) (h : n.isValidChar) :
    (Char.ofNat n).toNat = n := by
  simp [Char.ofNat, h]
  rfl

theorem charToNat_inj {a b : Char} (h : a.toNat = b.toNat) : a = b := by
  rw [← Char.ofNat_toNat a, ← Char.ofNat_toNat b, h]

theorem isUpperCh_toNat {c : Char} (h : isUpperCh c = true) :
    65 ≤ c.toNat ∧ c.toNat ≤ 90 := by
  rw [isUpperCh, decide_eq_true_eq] at h
  exact ⟨charLe_iff.mp h.1, charLe_iff.mp h.2⟩

theorem lowerCh_toNat {c : Char} (h : isUpperCh c = true) :
    (lowerCh c).toNat = c.toNat + 32 := by
  obtain ⟨h1, h2⟩ := isUpperCh_toNat h
  rw [lowerCh, toNat_ofNat_valid]
  left
  omega

theorem upperCh_lowerCh {c : Char} (h : isUpperCh c = true) :
    upperCh (lowerCh c) = c := by
  rw [upperCh, lowerCh_toNat h]
  have h3 : c.toNat + 32 - 32 = c.toNat := by omega
  rw [h3, Char.ofNat_toNat]

theorem lowerCh_lower {c : Char} (h : isUpperCh c = true) :
    'a' ≤ lowerCh c ∧ lowerCh c ≤ 'z' := by
  obtain ⟨h1, h2⟩ := isUpperCh_toNat h
  refine ⟨?_, ?_⟩
  · rw [charLe_iff, lowerCh_toNat h]
    show 97 ≤ c.toNat + 32
    omega
  · rw [charLe_iff, lowerCh_toNat h]
    show c.toNat + 32 ≤ 122
    omega

theorem isLowerAscii_toNat {c : Char} (h1 : 'a' ≤ c) (h2 : c ≤ 'z') :
    97 ≤ c.toNat ∧ c.toNat ≤ 122 :=
  ⟨charLe_iff.mp h1, charLe_iff.mp h2⟩

theorem upperCh_toNat {c : Char} (h1 : 'a' ≤ c) (h2 : c ≤ 'z') :
    (upperCh c).toNat = c.toNat - 32 := by
  obtain ⟨h3, h4⟩ := isLowerAscii_toNat h1 h2
  rw [upperCh, toNat_ofNat_valid]
  left
  omega

theorem lowerCh_upperCh {c : Char} (h1 : 'a' ≤ c) (h2 : c ≤ 'z') :
    lowerCh (upperCh c) = c := by
  obtain ⟨h3, h4⟩ := isLowerAscii_toNat h1 h2
  rw [lowerCh, upperCh_toNat h1 h2]
  have h5 : c.toNat - 32 + 32 = c.toNat := by omega
  rw [h5, Char.ofNat_toNat]

theorem isUpperCh_upperCh {c : Char} (h1 : 'a' ≤ c) (h2 : c ≤ 'z') :
    isUpperCh (upperCh c) = true := by
  obtain ⟨h3, h4⟩ := isLowerAscii_toNat h1 h2
  rw [isUpperCh, decide_eq_true_eq]
  refine ⟨?_, ?_⟩
  · rw [charLe_iff, upperCh_toNat h1 h2]
    show 65 ≤ c.toNat - 32
    omega
  · rw [charLe_iff, upperCh_toNat h1 h2]
    show c.toNat - 32 ≤ 90
    omega


/-- Reassembling a reversed scan: when the reversed remainder of a string
splits as `run ++ (a :: b :: rest2)`, the string itself is
`rest2.reverse ++ (b :: a :: run.reverse)`. -/
theorem rev_scan_decomp {rp1 run rest : GoStr} {a b : Char} {rest2 : GoStr}
    (hsplit : run ++ rest = rp1) (hrest : rest = a :: b :: rest2) :
    rest2.reverse ++ (b :: a :: run.reverse) = rp1.reverse := by
  subst hrest
  rw [← hsplit]
  simp

/-- The gopkg.in dialect part of claim C10: prefix and suffix of
`splitGopkgIn` concatenate back to the input, and every failure returns the
whole path with an empty suffix. -/
theorem splitGopkgIn_append (path : GoStr) :
    (splitGopkgIn path).1 ++ (splitGopkgIn path).2.1 = path ∧
      ((splitGopkgIn path).2.2 = true ∨
        ((splitGopkgIn path).1 = path ∧ (splitGopkgIn path).2.1 = [])) := by
  by_cases hunst : (str "-unstable").isSuffixOf path = true
  · obtain ⟨t, ht⟩ := List.isSuffixOf_iff_suffix.mp hunst
    have hrp : path.reverse.drop 9 = t.reverse := by
      rw [← ht, List.reverse_append]
      rfl
    simp only [splitGopkgIn, hunst, if_true]
    split
    · exact ⟨by simp, Or.inr ⟨rfl, rfl⟩⟩
    · split
      · rename_i rest2 heq
        split
        · exact ⟨by simp, Or.inr ⟨rfl, rfl⟩⟩
        · refine ⟨?_, Or.inl rfl⟩
          have hd := rev_scan_decomp
            (List.takeWhile_append_dropWhile isDigitCh (path.reverse.drop 9)) heq
          have hdrop : (path.reverse.drop 9).reverse = t := by
            rw [hrp, List.reverse_reverse]
          rw [hdrop] at hd
          calc rest2.reverse ++
                ('.' :: 'v' ::
                  ((path.reverse.drop 9).takeWhile isDigitCh).reverse ++ str "-unstable")
              = (rest2.reverse ++
                  ('.' :: 'v' ::
                    ((path.reverse.drop 9).takeWhile isDigitCh).reverse)) ++
                  str "-unstable" := by simp
            _ = t ++ str "-unstable" := by rw [hd]
            _ = path := ht
      · exact ⟨by simp, Or.inr ⟨rfl, rfl⟩⟩
  · simp only [Bool.not_eq_true] at hunst
    simp only [splitGopkgIn, hunst, Bool.false_eq_true, if_false]
    split
    · exact ⟨by simp, Or.inr ⟨rfl, rfl⟩⟩
    · split
      · rename_i rest2 heq
        split
        · exact ⟨by simp, Or.inr ⟨rfl, rfl⟩⟩
        · refine ⟨?_, Or.inl rfl⟩
          have hd := rev_scan_decomp
            (List.takeWhile_append_dropWhile isDigitCh path.reverse) heq
          rw [List.reverse_reverse] at hd
          simpa using hd
      · exact ⟨by simp, Or.inr ⟨rfl, rfl⟩⟩

/-- Claim C10 — for every input path, the prefix and suffix returned by
`SplitPathVersion` concatenate back to exactly the input path, on both the
generic and the legacy gopkg.in dialect and regardless of the success flag;
on failure the prefix is the whole path and the suffix is empty. -/
theorem splitPathVersion_append (path : GoStr) :
    (SplitPathVersion path).1 ++ (SplitPathVersion path).2.1 = path ∧
      ((SplitPathVersion path).2.2 = true ∨
        ((SplitPathVersion path).1 = path ∧
          (SplitPathVersion path).2.1 = [])) := by
  simp only [SplitPathVersion]
  split
  · exact splitGopkgIn_append path
  · split
    · rename_i rest2 heq
      split
      · exact ⟨by simp, Or.inl rfl⟩
      · split
        · exact ⟨by simp, Or.inr ⟨rfl, rfl⟩⟩
        · refine ⟨?_, Or.inl rfl⟩
          have hd := rev_scan_decomp
            (List.takeWhile_append_dropWhile
              (fun c => isDigitCh c || c == '.') path.reverse) heq
          rw [List.reverse_reverse] at hd
          simpa using hd
    · exact ⟨by simp, Or.inl rfl⟩

/-- Claim C9 — `MatchPathMajor` with an empty path-major suffix accepts
exactly the versions of major `v0` or `v1` and any version whose build
metadata is exactly `+incompatible`; in particular
`Check("example.com/pkg", "v3.0.0+incompatible")` succeeds although the path
carries no `/v3` suffix.  (The concrete evaluation instantiates the
`uniLetter` parameter with `noUniLetter`; the path is ASCII, so the
parameter is never consulted.) -/
theorem matchPathMajor_empty_iff :
    (∀ v : GoStr, MatchPathMajor v [] =
      (semverMajor v == str "v0" || semverMajor v == str "v1" ||
        semverBuild v == str "+incompatible")) ∧
    Check noUniLetter (str "example.com/pkg") (str "v3.0.0+incompatible") =
      .ok () := by
  constructor
  · intro v
    have h1 : (str ".v").isPrefixOf ([] : GoStr) = false := rfl
    have h2 : (([] : GoStr) == str ".v1") = false := rfl
    simp [MatchPathMajor, h1, h2]
  · decide

/-- Claim C7 — the module-path check is strictly stronger than the
import-path check: whenever `CheckPath` succeeds on a path, so does
`CheckImportPath`. -/
theorem checkPath_implies_checkImportPath
    (uniLetter : Char → Bool) (p : GoStr)
    (h : CheckPath uniLetter p = .ok ()) :
    CheckImportPath uniLetter p = .ok () := by
  cases hcp : checkPath uniLetter p false with
  | error e =>
    rw [CheckPath.eq_def, hcp] at h
    exact absurd h (by simp)
  | ok u =>
    rw [CheckImportPath.eq_def, hcp]

/-- Witness for `checkPath_implies_checkImportPath` at a concrete valid
module path. -/
theorem checkPath_implies_checkImportPath_witness :
    CheckImportPath noUniLetter (str "golang.org/x/mod") = .ok () :=
  checkPath_implies_checkImportPath noUniLetter (str "golang.org/x/mod")
    (by decide)

/-- The major-version matching rule exactly as claim C3 states it: an
unsuffixed path matches major `v0` or `v1`; a suffixed path matches exactly
the major named by the suffix. -/
def claimMajorMatch (version pathMajor : GoStr) : Bool :=
  if pathMajor = [] then
    semverMajor version == str "v0" || semverMajor version == str "v1"
  else semverMajor version == pathMajor.tail

/-- Counterexample to claim C3 as stated: `Check` succeeds on the unsuffixed
path `example.com/pkg` with version `v3.0.0+incompatible`, whose major
component `v3` is neither `v0` nor `v1`, so "succeeds only when the
version's major matches the path's suffix (unsuffixed: `v0` or `v1`)" fails
— `MatchPathMajor` additionally accepts `+incompatible` build metadata. -/
theorem check_incompatible_cex :
    Check noUniLetter (str "example.com/pkg") (str "v3.0.0+incompatible") =
        .ok () ∧
      claimMajorMatch (str "v3.0.0+incompatible")
        (SplitPathVersion (str "example.com/pkg")).2.1 = false := by decide

/-- Claim C3 as amended — `Check(path, version)` succeeds exactly when the
path passes `CheckPath`, the version is a valid semantic version, and
`MatchPathMajor` accepts the pair (for an unsuffixed path: major `v0` or
`v1`, or build metadata exactly `+incompatible`); on a major-version
mismatch the returned error is the mismatch error naming the expected major
version, rendered as `v0 or v1` when the path carries no explicit suffix. -/
theorem check_characterization :
    (∀ (uniLetter : Char → Bool) (path version : GoStr),
      Check uniLetter path version = .ok () ↔
        (CheckPath uniLetter path = .ok () ∧ semverIsValid version = true ∧
          MatchPathMajor version (SplitPathVersion path).2.1 = true)) ∧
    (∀ (uniLetter : Char → Bool) (path version : GoStr),
      CheckPath uniLetter path = .ok () → semverIsValid version = true →
      MatchPathMajor version (SplitPathVersion path).2.1 = false →
      Check uniLetter path version =
        .error (.mismatch path version
          (wantMajor (SplitPathVersion path).2.1))) ∧
    wantMajor [] = str "v0 or v1" := by
  refine ⟨?_, ?_, rfl⟩
  · intro uniLetter path version
    rw [Check.eq_def]
    cases hcp : CheckPath uniLetter path with
    | error e => simp [hcp]
    | ok u =>
      by_cases hv : semverIsValid version = true
      · by_cases hm :
          MatchPathMajor version (SplitPathVersion path).2.1 = true
        · simp [hcp, hv, hm]
        · simp only [Bool.not_eq_true] at hm
          simp [hcp, hv, hm]
      · simp only [Bool.not_eq_true] at hv
        simp [hcp, hv]
  · intro uniLetter path version hcp hv hm
    rw [Check.eq_def, hcp]
    simp [hv, hm]

/-- Witness for `check_characterization`: a concrete mismatch on an
unsuffixed path, with the error naming `v0 or v1`. -/
theorem check_characterization_witness :
    Check noUniLetter (str "example.com/pkg") (str "v3.0.0") =
      .error (.mismatch (str "example.com/pkg") (str "v3.0.0")
        (str "v0 or v1")) := by
  have h := check_characterization.2.1 noUniLetter (str "example.com/pkg")
    (str "v3.0.0") (by decide) (by decide) (by decide)
  exact h

/-- Claim C4's "a trailing '/v'-plus-digits-and-dots candidate exists", read
as stated: after scanning back over the (possibly empty) maximal run of
digits and dots, the remainder starts with `'v'` then `'/'`. -/
def claimCandidateLoose (path : GoStr) : Bool :=
  let rest := path.reverse.dropWhile (fun c => isDigitCh c || c == '.')
  rest.head? == some 'v' && rest.tail.head? == some '/'

/-- Claim C4's reject disjunction, exactly as stated: the digit run contains
a dot, or the suffix is just `/v` with nothing after (empty run), or the
first digit after `v` is `'0'`, or the suffix is exactly `/v1`. -/
def claimBadSuffix (path : GoStr) : Bool :=
  let run := path.reverse.takeWhile (fun c => isDigitCh c || c == '.')
  run.contains '.' || run.isEmpty || run.getLast? == some '0' ||
    ('/' :: 'v' :: run.reverse) == str "/v1"

/-- The candidate of the amended claim C4: the run of digits and dots before
the trailing `'/v'` must additionally be non-empty. -/
def genericCandidate (path : GoStr) : Bool :=
  claimCandidateLoose path &&
    !(path.reverse.takeWhile (fun c => isDigitCh c || c == '.')).isEmpty

/-- Counterexample to claim C4 as stated: the path `example.com/pkg/v` ends
in a `'/v'` candidate whose digit run is empty ("just `/v` with nothing
after"), so the claim says `ok = false`; but `SplitPathVersion` treats an
empty run as "no `/vN` pattern" and succeeds with an empty suffix. -/
theorem splitPathVersion_bare_v_cex :
    claimCandidateLoose (str "example.com/pkg/v") = true ∧
      claimBadSuffix (str "example.com/pkg/v") = true ∧
      (SplitPathVersion (str "example.com/pkg/v")).2.2 = true := by decide

theorem length_cons2_le_two_eq_isEmpty (a b : Char) (l : GoStr) :
    decide ((a :: b :: l).length ≤ 2) = l.isEmpty := by
  cases l <;> simp

theorem get?_cons2_two (a b : Char) (l : GoStr) :
    (a :: b :: l).get? 2 = l.head? := by
  cases l <;> rfl

theorem isEmpty_reverse_eq (l : GoStr) : l.reverse.isEmpty = l.isEmpty := by
  rw [Bool.eq_iff_iff, List.isEmpty_iff, List.isEmpty_iff,
    List.reverse_eq_nil_iff]

theorem head?_reverse_eq (l : GoStr) : l.reverse.head? = l.getLast? :=
  List.head?_reverse l

/-- Claim C4 as amended — for every non-legacy path, `SplitPathVersion`
returns `ok = false` exactly when a trailing `'/v'` followed by a
*non-empty* run of digits and dots is present and that run contains a dot,
or its first digit is `'0'`, or the suffix is exactly `/v1`; when the path
does not end in `'/v'` plus a non-empty digit run — including when it ends
in a bare `/v` — the whole path is returned as prefix with an empty suffix
and `ok = true`. -/
theorem splitPathVersion_generic_characterization (path : GoStr)
    (hgp : (str "gopkg.in/").isPrefixOf path = false) :
    ((SplitPathVersion path).2.2 = false ↔
      (genericCandidate path = true ∧ claimBadSuffix path = true)) ∧
    (genericCandidate path = false →
      SplitPathVersion path = (path, [], true)) := by
  simp only [SplitPathVersion, hgp, Bool.false_eq_true, if_false]
  split
  · rename_i rest2 heq
    by_cases hrun :
        (path.reverse.takeWhile (fun c => isDigitCh c || c == '.')).isEmpty = true
    · simp only [hrun, if_true]
      constructor
      · simp [genericCandidate, hrun]
      · intro _
        trivial
    · simp only [Bool.not_eq_true] at hrun
      simp only [hrun, Bool.false_eq_true, if_false]
      have hcand : genericCandidate path = true := by
        simp [genericCandidate, claimCandidateLoose, heq, hrun]
      have hbad : claimBadSuffix path =
          ((path.reverse.takeWhile (fun c => isDigitCh c || c == '.')).contains '.' ||
            decide (('/' :: 'v' ::
              (path.reverse.takeWhile (fun c => isDigitCh c || c == '.')).reverse).length ≤ 2) ||
            ('/' :: 'v' ::
              (path.reverse.takeWhile (fun c => isDigitCh c || c == '.')).reverse).get? 2 ==
              some '0' ||
            ('/' :: 'v' ::
              (path.reverse.takeWhile (fun c => isDigitCh c || c == '.')).reverse) ==
              str "/v1") := by
        rw [claimBadSuffix, length_cons2_le_two_eq_isEmpty, get?_cons2_two,
          isEmpty_reverse_eq, head?_reverse_eq]
      split
      · rename_i hrej
        have hb2 : claimBadSuffix path = true := hbad.trans hrej
        refine ⟨by simp [hcand, hb2], ?_⟩
        intro hfc
        rw [hcand] at hfc
        cases hfc
      · rename_i hrej
        rw [Bool.not_eq_true] at hrej
        have hb2 : claimBadSuffix path = false := hbad.trans hrej
        refine ⟨by simp [hb2], ?_⟩
        intro hfc
        rw [hcand] at hfc
        cases hfc
  · rename_i hne
    have hcand : genericCandidate path = false := by
      rw [genericCandidate, claimCandidateLoose]
      rcases hrest : path.reverse.dropWhile (fun c => isDigitCh c || c == '.') with
        _ | ⟨a, _ | ⟨b, t⟩⟩
      · simp
      · simp
      · by_cases hab : a = 'v' ∧ b = '/'
        · exact absurd (by rw [hrest, hab.1, hab.2]) (hne t)
        · simp only [List.head?_cons, List.tail_cons]
          rcases Decidable.not_and_iff_or_not .. |>.mp hab with h | h <;>
            simp [h]
    refine ⟨by simp [hcand], fun _ => rfl⟩

/-- Witness for `splitPathVersion_generic_characterization`: the non-legacy
path `example.com/pkg/v1` is rejected, via the amended characterization. -/
theorem splitPathVersion_generic_characterization_witness :
    (SplitPathVersion (str "example.com/pkg/v1")).2.2 = false :=
  (splitPathVersion_generic_characterization (str "example.com/pkg/v1")
    (by decide)).1.mpr (by decide)

/-- The legacy splitter exactly as claim C5 states it: strip an optional
trailing `-unstable` marker, scan backward over trailing digits, require the
digit run to be immediately preceded by `'v'` then `'.'`; the suffix "must
not have more than 2 characters unless its first digit is nonzero", with the
literal value 0 allowed only as the special case `.v0` — i.e. reject exactly
when the suffix is longer than 2 characters, its character after `.v` is
`'0'`, and it is not `.v0`; any path failing the shape is rejected with no
empty-suffix success fallback. -/
def claimSplitGopkg (path : GoStr) : GoStr × GoStr × Bool :=
  if !((str "gopkg.in/").isPrefixOf path) then (path, [], false)
  else
    let unst := (str "-unstable").isSuffixOf path
    let rp1 := if unst then path.reverse.drop 9 else path.reverse
    let run := rp1.takeWhile isDigitCh
    let rest := rp1.dropWhile isDigitCh
    match rest with
    | 'v' :: '.' :: rest2 =>
      let pathMajor :=
        '.' :: 'v' :: run.reverse ++ (if unst then str "-unstable" else [])
      if 2 < pathMajor.length && (pathMajor.get? 2 == some '0') &&
          !(pathMajor == str ".v0") then
        (path, [], false)
      else (rest2.reverse, pathMajor, true)
    | _ => (path, [], false)

/-- The legacy splitter as amended claim C5 describes it: as stated by the
claim, except that the suffix must also be longer than the bare `.v`
(more than 2 characters) to be accepted. -/
def splitGopkgAmended (path : GoStr) : GoStr × GoStr × Bool :=
  if !((str "gopkg.in/").isPrefixOf path) then (path, [], false)
  else
    let unst := (str "-unstable").isSuffixOf path
    let rp1 := if unst then path.reverse.drop 9 else path.reverse
    let run := rp1.takeWhile isDigitCh
    let rest := rp1.dropWhile isDigitCh
    match rest with
    | 'v' :: '.' :: rest2 =>
      let pathMajor :=
        '.' :: 'v' :: run.reverse ++ (if unst then str "-unstable" else [])
      if 2 < pathMajor.length &&
          (!(pathMajor.get? 2 == some '0') || pathMajor == str ".v0") then
        (rest2.reverse, pathMajor, true)
      else (path, [], false)
    | _ => (path, [], false)

/-- Counterexample to claim C5 as stated: on `gopkg.in/yaml.v` the shape
matches (empty digit run preceded by `v` then `.`) and the suffix `.v` has
no more than 2 characters, so the claim's stated numeric condition accepts
it; `splitGopkgIn` rejects it (`len(pathMajor) <= 2` is a rejection case in
the code). -/
theorem splitGopkgIn_bare_dot_v_cex :
    SplitPathVersion (str "gopkg.in/yaml.v") =
        (str "gopkg.in/yaml.v", [], false) ∧
      claimSplitGopkg (str "gopkg.in/yaml.v") =
        (str "gopkg.in/yaml", str ".v", true) := by decide

theorem gopkg_cond_flip (pm : GoStr) (a b : GoStr × GoStr × Bool) :
    (if (decide (pm.length ≤ 2) ||
        ((pm.get? 2 == some '0') && !(pm == str ".v0"))) = true then b else a) =
    (if (decide (2 < pm.length) &&
        (!(pm.get? 2 == some '0') || pm == str ".v0")) = true then a else b) := by
  by_cases h1 : pm.length ≤ 2
  · have h1' : ¬(2 < pm.length) := by omega
    simp [h1, h1']
  · have h1' : 2 < pm.length := by omega
    by_cases h2 : (pm.get? 2 == some '0') = true
    · by_cases h3 : (pm == str ".v0") = true <;> simp [h1, h1', h2, h3]
    · have h2' : ¬(pm[2] = '0') := by
        intro hEq
        rw [show pm.get? 2 = some pm[2] by
          rw [List.get?_eq_getElem?, List.getElem?_eq_getElem h1']] at h2
        simp [hEq] at h2
      simp [h1, h1', h2']

/-- Claim C5 as amended — for every path with the legacy prefix `gopkg.in/`,
`SplitPathVersion` strips an optional trailing `-unstable` marker, scans
backward over trailing digits, requires the digit run to be immediately
preceded by `'v'` then `'.'`, and accepts exactly when the resulting suffix
has more than 2 characters and the character after `.v` is not `'0'` unless
the suffix is exactly `.v0`; every failing path is rejected as
`(path, "", false)`, with no empty-suffix success fallback. -/
theorem splitPathVersion_gopkg_characterization (path : GoStr)
    (hgp : (str "gopkg.in/").isPrefixOf path = true) :
    SplitPathVersion path = splitGopkgAmended path := by
  rw [SplitPathVersion.eq_def]
  simp only [hgp, if_true]
  simp only [splitGopkgIn, splitGopkgAmended, hgp, Bool.not_true,
    Bool.false_eq_true, if_false]
  split
  · exact gopkg_cond_flip ..
  · rfl

/-- Witness for `splitPathVersion_gopkg_characterization` at a concrete
legacy path. -/
theorem splitPathVersion_gopkg_characterization_witness :
    SplitPathVersion (str "gopkg.in/yaml.v2") =
      splitGopkgAmended (str "gopkg.in/yaml.v2") :=
  splitPathVersion_gopkg_characterization (str "gopkg.in/yaml.v2")
    (by decide)

@[simp] theorem isOk_error {ε α : Type} (e : ε) :
    (Except.error e : Except ε α).isOk = false := rfl

@[simp] theorem isOk_ok {ε α : Type} (u : α) :
    (Except.ok u : Except ε α).isOk = true := rfl

/-- The character class for an import-path element as claim C6 states it:
ASCII letters, ASCII digits, and the punctuation `+ - . _ ~`. -/
def importElemCharOKSpec (c : Char) : Bool :=
  decide ('A' ≤ c ∧ c ≤ 'Z') || decide ('a' ≤ c ∧ c ≤ 'z') ||
    decide ('0' ≤ c ∧ c ≤ '9') || (str "+-._~").contains c

/-- Validity of one slash-separated element as claim C6 states it:
non-empty, not solely dots, no leading or trailing dot, characters in the
allowed class, and the portion before the first dot not case-insensitively
equal to a reserved Windows device name. -/
def elemSpecOK (e : GoStr) : Bool :=
  !e.isEmpty && !(e.all (fun c => c == '.')) &&
    !(e.head? == some '.') && !(e.getLast? == some '.') &&
    e.all importElemCharOKSpec &&
    badWindowsNames.all
      (fun bad => !asciiEqualFold bad (e.takeWhile (fun c => !(c == '.'))))

/-- Validity of an import path as claim C6 states it.  The claim's
"valid UTF-8" conjunct is identically true on this embedding's strings (see
the note on `GoStr` at the top of the file). -/
def importPathSpecOK (p : GoStr) : Bool :=
  !p.isEmpty && !(hasSubstr (str "..") p) && !(hasSubstr (str "//") p) &&
    !(p.getLast? == some '/') && (splitOnChar '/' p).all elemSpecOK

set_option maxHeartbeats 1000000 in
theorem pathOK_eq_spec (c : Char) : pathOK c = importElemCharOKSpec c := by
  by_cases h : c.toNat < 0x80
  · rw [pathOK, if_pos h, importElemCharOKSpec, Bool.eq_iff_iff]
    have hc : ((str "+-._~").contains c = true) ↔
        c ∈ ['+', '-', '.', '_', '~'] := List.elem_iff
    simp only [Bool.or_eq_true, beq_iff_eq, decide_eq_true_eq, hc,
      List.mem_cons, List.not_mem_nil, or_false]
    tauto
  · rw [pathOK, if_neg h, importElemCharOKSpec]
    have hz : 'Z'.toNat = 90 := rfl
    have hzz : 'z'.toNat = 122 := rfl
    have h9 : '9'.toNat = 57 := rfl
    have e1 : decide ('A' ≤ c ∧ c ≤ 'Z') = false := by
      rw [decide_eq_false_iff_not]
      rintro ⟨_, h2⟩
      exact h (by have := charLe_iff.mp h2; omega)
    have e2 : decide ('a' ≤ c ∧ c ≤ 'z') = false := by
      rw [decide_eq_false_iff_not]
      rintro ⟨_, h2⟩
      exact h (by have := charLe_iff.mp h2; omega)
    have e3 : decide ('0' ≤ c ∧ c ≤ '9') = false := by
      rw [decide_eq_false_iff_not]
      rintro ⟨_, h2⟩
      exact h (by have := charLe_iff.mp h2; omega)
    have e4 : (str "+-._~").contains c = false := by
      rw [← Bool.not_eq_true]
      intro hm
      have hc : ((str "+-._~").contains c = true) ↔
          c ∈ ['+', '-', '.', '_', '~'] := List.elem_iff
      rw [hc] at hm
      apply h
      fin_cases hm <;> decide
    rw [e1, e2, e3, e4]
    rfl

theorem checkElem_false_isOk (uniLetter : Char → Bool) (e : GoStr) :
    (checkElem uniLetter e false).isOk = elemSpecOK e := by
  by_cases h1 : e = []
  · subst h1
    rfl
  · have hie : e.isEmpty = false := by
      rw [← Bool.not_eq_true, List.isEmpty_iff]
      exact h1
    by_cases h2 : e.count '.' = e.length
    · have hall : e.all (fun c => c == '.') = true := by
        rw [List.all_eq_true]
        intro x hx
        rw [beq_iff_eq]
        exact (List.count_eq_length.mp h2 x hx).symm
      simp [checkElem, elemSpecOK, h1, h2, hall]
    · have hall : e.all (fun c => c == '.') = false := by
        rw [Bool.eq_false_iff]
        intro hz
        apply h2
        rw [List.count_eq_length]
        intro b hb
        have := List.all_eq_true.mp hz b hb
        rw [beq_iff_eq] at this
        exact this.symm
      by_cases h3 : (e.head? == some '.') = true
      · simp [checkElem, elemSpecOK, h1, h2, h3, hie, hall]
      · rw [Bool.not_eq_true] at h3
        by_cases h4 : (e.getLast? == some '.') = true
        · simp [checkElem, elemSpecOK, h1, h2, h3, h4, hie, hall]
        · rw [Bool.not_eq_true] at h4
          cases hf : e.find? (fun r => !(pathOK r)) with
          | some r =>
            have hp := List.find?_some hf
            have hmem := List.mem_of_find?_eq_some hf
            have hspec : e.all importElemCharOKSpec = false := by
              rw [Bool.eq_false_iff]
              intro hz
              have := List.all_eq_true.mp hz r hmem
              rw [← pathOK_eq_spec] at this
              rw [this] at hp
              cases hp
            simp [checkElem, elemSpecOK, h1, h2, h3, h4, hie, hall, hf, hspec]
          | none =>
            have hspec : e.all importElemCharOKSpec = true := by
              rw [List.all_eq_true]
              intro x hx
              rw [← pathOK_eq_spec]
              have := List.find?_eq_none.mp hf x hx
              simpa using this
            cases hw : badWindowsNames.find?
                (fun bad =>
                  asciiEqualFold bad (e.takeWhile (fun c => !(c == '.')))) with
            | some bad =>
              have hwp := List.find?_some hw
              have hwmem := List.mem_of_find?_eq_some hw
              have hwall : badWindowsNames.all
                  (fun bad =>
                    !asciiEqualFold bad (e.takeWhile (fun c => !(c == '.')))) =
                    false := by
                rw [Bool.eq_false_iff]
                intro hz
                have := List.all_eq_true.mp hz _ hwmem
                rw [hwp] at this
                cases this
              simp [checkElem, elemSpecOK, h1, h2, h3, h4, hie, hall, hf, hw,
                hspec, hwall]
            | none =>
              have hwall : badWindowsNames.all
                  (fun bad =>
                    !asciiEqualFold bad (e.takeWhile (fun c => !(c == '.')))) =
                    true := by
                rw [List.all_eq_true]
                intro bad hb
                have := List.find?_eq_none.mp hw bad hb
                simpa using this
              simp [checkElem, elemSpecOK, h1, h2, h3, h4, hie, hall, hf, hw,
                hspec, hwall]

theorem checkElems_isOk (uniLetter : Char → Bool) (es : List GoStr)
    (fn : Bool) :
    (checkElems uniLetter es fn).isOk =
      es.all (fun e => (checkElem uniLetter e fn).isOk) := by
  induction es with
  | nil => rfl
  | cons e es ih =>
    simp only [checkElems, List.all_cons]
    cases hce : checkElem uniLetter e fn with
    | error err => simp [hce]
    | ok u => simp [hce, ih]

theorem checkPath_false_isOk (uniLetter : Char → Bool) (p : GoStr) :
    (checkPath uniLetter p false).isOk = importPathSpecOK p := by
  by_cases h1 : p = []
  · subst h1
    rfl
  · have hie : p.isEmpty = false := by
      rw [← Bool.not_eq_true, List.isEmpty_iff]
      exact h1
    by_cases h2 : hasSubstr (str "..") p = true
    · simp [checkPath, importPathSpecOK, h1, h2, hie]
    · rw [Bool.not_eq_true] at h2
      by_cases h3 : hasSubstr (str "//") p = true
      · simp [checkPath, importPathSpecOK, h1, h2, h3, hie]
      · rw [Bool.not_eq_true] at h3
        by_cases h4 : (p.getLast? == some '/') = true
        · simp [checkPath, importPathSpecOK, h1, h2, h3, h4, hie]
        · rw [Bool.not_eq_true] at h4
          simp [checkPath, importPathSpecOK, h1, h2, h3, h4, hie,
            checkElems_isOk, checkElem_false_isOk]

/-- Claim C6 — `CheckImportPath` accepts a path exactly when it is
non-empty, contains no `..` and no `//` substring, does not end in `/`, and
every slash-separated element is non-empty, not solely dots, has no leading
or trailing dot, uses only ASCII letters, digits and `+ - . _ ~`, and its
portion before the first dot is not case-insensitively a reserved Windows
device name.  (The claim's valid-UTF-8 conjunct is identically true on this
embedding's strings, which are exactly the valid-UTF-8 Go strings.) -/
theorem checkImportPath_characterization (uniLetter : Char → Bool)
    (p : GoStr) :
    (CheckImportPath uniLetter p).isOk = importPathSpecOK p := by
  rw [← checkPath_false_isOk uniLetter p]
  cases hcp : checkPath uniLetter p false with
  | error e => simp [CheckImportPath, hcp]
  | ok u => simp [CheckImportPath, hcp]

theorem escLoop_eq_self {s : GoStr} (h : s.any isUpperCh = false) :
    escLoop s = s := by
  induction s with
  | nil => rfl
  | cons c t ih =>
    rw [List.any_cons, Bool.or_eq_false_iff] at h
    simp only [escLoop]
    rw [if_neg (by rw [h.1]; exact Bool.false_ne_true), ih h.2]

theorem escapeString_ok {s : GoStr}
    (hok : s.any (fun r => r == '!' || decide (0x80 ≤ r.toNat)) = false) :
    escapeString s = .ok (escLoop s) := by
  rw [escapeString, hok]
  simp only [Bool.false_eq_true, if_false]
  by_cases hup : s.any isUpperCh = true
  · rw [hup]
    rfl
  · rw [Bool.not_eq_true] at hup
    rw [hup]
    simp [escLoop_eq_self hup]

theorem escapeString_ok_inv {s es : GoStr} (h : escapeString s = .ok es) :
    es = escLoop s ∧
      s.any (fun r => r == '!' || decide (0x80 ≤ r.toNat)) = false := by
  by_cases hany : s.any (fun r => r == '!' || decide (0x80 ≤ r.toNat)) = true
  · rw [escapeString, hany] at h
    simp at h
  · rw [Bool.not_eq_true] at hany
    rw [escapeString_ok hany] at h
    exact ⟨by injection h with h2; exact h2.symm, hany⟩

theorem contains_eq_false_forall {v : GoStr} {a : Char}
    (h : v.contains a = false) : ∀ c ∈ v, ¬(c = a) := by
  intro c hc hca
  subst hca
  have h2 : v.contains c = true := List.elem_iff.mpr hc
  rw [h2] at h
  cases h

theorem any_eq_false_of_facts {s : GoStr}
    (hascii : ∀ c ∈ s, c.toNat < 0x80) (hbang : ∀ c ∈ s, ¬(c = '!')) :
    s.any (fun r => r == '!' || decide (0x80 ≤ r.toNat)) = false := by
  rw [← Bool.not_eq_true, List.any_eq_true]
  rintro ⟨x, hx, hp⟩
  rw [Bool.or_eq_true, beq_iff_eq, decide_eq_true_eq] at hp
  rcases hp with h1 | h1
  · exact hbang x hx h1
  · exact absurd (hascii x hx) (by omega)

theorem unescLoop_escLoop (s : GoStr) (hascii : ∀ c ∈ s, c.toNat < 0x80)
    (hbang : ∀ c ∈ s, ¬(c = '!')) :
    unescLoop (escLoop s) false = some s := by
  induction s with
  | nil => rfl
  | cons c t ih =>
    have ht := ih (fun x hx => hascii x (List.mem_cons.mpr (Or.inr hx)))
      (fun x hx => hbang x (List.mem_cons.mpr (Or.inr hx)))
    have hc80 : c.toNat < 0x80 := hascii c (List.mem_cons.mpr (Or.inl rfl))
    have hcb : ¬(c = '!') := hbang c (List.mem_cons.mpr (Or.inl rfl))
    by_cases hup : isUpperCh c = true
    · obtain ⟨hla, hlz⟩ := lowerCh_lower hup
      have hl1 : (lowerCh c).toNat = c.toNat + 32 := lowerCh_toNat hup
      obtain ⟨hu1, hu2⟩ := isUpperCh_toNat hup
      have hcond : (decide (lowerCh c < 'a') || decide ('z' < lowerCh c)) =
          false := by
        rw [Bool.or_eq_false_iff]
        exact ⟨decide_eq_false (Char.not_lt.mpr hla),
          decide_eq_false (Char.not_lt.mpr hlz)⟩
      simp only [escLoop]
      rw [if_pos hup, unescLoop]
      rw [if_neg (by decide : ¬(0x80 ≤ ('!' : Char).toNat))]
      rw [if_neg Bool.false_ne_true]
      rw [if_pos (by decide : (('!' : Char) == '!') = true), unescLoop]
      rw [if_neg (by omega : ¬(0x80 ≤ (lowerCh c).toNat))]
      rw [if_pos rfl]
      rw [if_neg (by rw [hcond]; exact Bool.false_ne_true)]
      rw [ht]
      rw [show (some t).map (fun buf => upperCh (lowerCh c) :: buf) =
        some (upperCh (lowerCh c) :: t) from rfl]
      rw [upperCh_lowerCh hup]
    · have hbeq : (c == '!') = false := by
        rw [beq_eq_false_iff_ne]
        exact hcb
      simp only [escLoop]
      rw [if_neg hup, unescLoop]
      rw [if_neg (by omega : ¬(0x80 ≤ c.toNat))]
      rw [if_neg Bool.false_ne_true]
      rw [if_neg (by rw [hbeq]; exact Bool.false_ne_true)]
      rw [if_neg hup]
      rw [ht]
      rfl

theorem unescLoop_sound :
    ∀ (e : GoStr) (bang : Bool) (v : GoStr), unescLoop e bang = some v →
      (∀ c ∈ v, c.toNat < 0x80 ∧ ¬(c = '!')) ∧
      escLoop v = (if bang then '!' :: e else e) := by
  intro e
  induction e with
  | nil =>
    intro bang v h
    cases bang
    · rw [unescLoop, if_neg Bool.false_ne_true] at h
      injection h with h2
      subst h2
      exact ⟨fun c hc => absurd hc (List.not_mem_nil c), rfl⟩
    · rw [unescLoop, if_pos rfl] at h
      cases h
  | cons r t ih =>
    intro bang v h
    rw [unescLoop] at h
    by_cases h80 : 0x80 ≤ r.toNat
    · rw [if_pos h80] at h
      cases h
    · rw [if_neg h80] at h
      cases bang
      · rw [if_neg Bool.false_ne_true] at h
        by_cases hbeq : (r == '!') = true
        · rw [if_pos hbeq] at h
          have hr : r = '!' := by
            rw [beq_iff_eq] at hbeq
            exact hbeq
          obtain ⟨hprops, hesc⟩ := ih true v h
          rw [if_pos rfl] at hesc
          refine ⟨hprops, ?_⟩
          rw [if_neg Bool.false_ne_true, hesc, hr]
        · rw [Bool.not_eq_true] at hbeq
          rw [if_neg (by rw [hbeq]; exact Bool.false_ne_true)] at h
          by_cases hup : isUpperCh r = true
          · rw [if_pos hup] at h
            cases h
          · rw [if_neg hup] at h
            cases hu : unescLoop t false with
            | none =>
              rw [hu] at h
              cases h
            | some vt =>
              rw [hu] at h
              injection h with h2
              subst h2
              obtain ⟨hprops, hesc⟩ := ih false vt hu
              rw [if_neg Bool.false_ne_true] at hesc
              refine ⟨?_, ?_⟩
              · intro c hc
                rcases List.mem_cons.mp hc with rfl | hct
                · refine ⟨by omega, ?_⟩
                  intro hb
                  rw [beq_eq_false_iff_ne] at hbeq
                  exact hbeq hb
                · exact hprops c hct
              · rw [if_neg Bool.false_ne_true]
                simp only [escLoop]
                rw [if_neg hup, hesc]
      · rw [if_pos rfl] at h
        by_cases hrange : (decide (r < 'a') || decide ('z' < r)) = true
        · rw [if_pos hrange] at h
          cases h
        · rw [if_neg hrange] at h
          cases hu : unescLoop t false with
          | none =>
            rw [hu] at h
            cases h
          | some vt =>
            rw [hu] at h
            injection h with h2
            subst h2
            obtain ⟨hprops, hesc⟩ := ih false vt hu
            rw [if_neg Bool.false_ne_true] at hesc
            rw [Bool.not_eq_true, Bool.or_eq_false_iff,
              decide_eq_false_iff_not, decide_eq_false_iff_not] at hrange
            have h1 : 'a' ≤ r := Char.not_lt.mp hrange.1
            have h2 : r ≤ 'z' := Char.not_lt.mp hrange.2
            have hun := upperCh_toNat h1 h2
            obtain ⟨hl1, hl2⟩ := isLowerAscii_toNat h1 h2
            refine ⟨?_, ?_⟩
            · intro c hc
              rcases List.mem_cons.mp hc with rfl | hct
              · refine ⟨by omega, ?_⟩
                intro hb
                have hb2 : (upperCh r).toNat = 33 := by rw [hb]; rfl
                omega
              · exact hprops c hct
            · rw [if_pos rfl]
              simp only [escLoop]
              rw [if_pos (isUpperCh_upperCh h1 h2), lowerCh_upperCh h1 h2,
                hesc]

theorem splitOnChar_ne_nil (sep : Char) (l : GoStr) :
    splitOnChar sep l ≠ [] := by
  induction l with
  | nil => simp [splitOnChar]
  | cons c t ih =>
    rw [splitOnChar]
    by_cases h : c = sep
    · simp [h]
    · rw [if_neg h]
      cases hs : splitOnChar sep t with
      | nil => exact absurd hs ih
      | cons e es => simp [List.modifyHead]

theorem mem_splitOnChar (sep : Char) {c : Char} {p : GoStr} (hc : c ∈ p) :
    c = sep ∨ ∃ e ∈ splitOnChar sep p, c ∈ e := by
  induction p with
  | nil => cases hc
  | cons a t ih =>
    rw [splitOnChar]
    by_cases ha : a = sep
    · rw [if_pos ha]
      rcases List.mem_cons.mp hc with rfl | hct
      · exact Or.inl ha
      · rcases ih hct with h | ⟨e, he, hce⟩
        · exact Or.inl h
        · exact Or.inr ⟨e, List.mem_cons.mpr (Or.inr he), hce⟩
    · rw [if_neg ha]
      cases hs : splitOnChar sep t with
      | nil => exact absurd hs (splitOnChar_ne_nil sep t)
      | cons e0 es =>
        simp only [List.modifyHead]
        rcases List.mem_cons.mp hc with rfl | hct
        · exact Or.inr ⟨c :: e0, List.mem_cons.mpr (Or.inl rfl),
            List.mem_cons.mpr (Or.inl rfl)⟩
        · rcases ih hct with h | ⟨e, he, hce⟩
          · exact Or.inl h
          · rw [hs] at he
            rcases List.mem_cons.mp he with rfl | hee
            · exact Or.inr ⟨a :: e, List.mem_cons.mpr (Or.inl rfl),
                List.mem_cons.mpr (Or.inr hce)⟩
            · exact Or.inr ⟨e, List.mem_cons.mpr (Or.inr hee), hce⟩

theorem pathOK_facts {c : Char} (h : pathOK c = true) :
    c.toNat < 0x80 ∧ ¬(c = '!') := by
  constructor
  · by_cases hA : c.toNat < 0x80
    · exact hA
    · rw [pathOK, if_neg hA] at h
      cases h
  · intro hb
    subst hb
    rw [show pathOK '!' = false from by decide] at h
    cases h

theorem checkPath_ok_chars (uniLetter : Char → Bool) (p : GoStr)
    (h : (checkPath uniLetter p false).isOk = true) :
    ∀ c ∈ p, c.toNat < 0x80 ∧ ¬(c = '!') := by
  rw [checkPath_false_isOk, importPathSpecOK] at h
  simp only [Bool.and_eq_true] at h
  obtain ⟨⟨⟨⟨_, _⟩, _⟩, _⟩, h5⟩ := h
  intro c hc
  rcases mem_splitOnChar '/' hc with rfl | ⟨e, he, hce⟩
  · exact ⟨by decide, by decide⟩
  · have helem := List.all_eq_true.mp h5 e he
    rw [elemSpecOK] at helem
    simp only [Bool.and_eq_true] at helem
    obtain ⟨⟨_, hchars⟩, _⟩ := helem
    have hcspec := List.all_eq_true.mp hchars c hce
    rw [← pathOK_eq_spec] at hcspec
    exact pathOK_facts hcspec

theorem CheckPath_ok_checkPath {uniLetter : Char → Bool} {p : GoStr}
    (h : CheckPath uniLetter p = .ok ()) :
    (checkPath uniLetter p false).isOk = true := by
  cases hcp : checkPath uniLetter p false with
  | error e =>
    rw [CheckPath.eq_def, hcp] at h
    exact absurd h (by simp)
  | ok u => rfl

theorem EscapePath_eq {uniLetter : Char → Bool} {p : GoStr}
    (h : CheckPath uniLetter p = .ok ()) :
    EscapePath uniLetter p = .ok (escLoop p) := by
  have hch := checkPath_ok_chars uniLetter p (CheckPath_ok_checkPath h)
  have hany := any_eq_false_of_facts (fun c hc => (hch c hc).1)
    (fun c hc => (hch c hc).2)
  rw [EscapePath.eq_def, h]
  simp [escapeString_ok hany]

theorem UnescapePath_escLoop {uniLetter : Char → Bool} {p : GoStr}
    (h : CheckPath uniLetter p = .ok ()) :
    UnescapePath uniLetter (escLoop p) = .ok p := by
  have hch := checkPath_ok_chars uniLetter p (CheckPath_ok_checkPath h)
  have hun : unescLoop (escLoop p) false = some p :=
    unescLoop_escLoop p (fun c hc => (hch c hc).1) (fun c hc => (hch c hc).2)
  rw [UnescapePath.eq_def, unescapeString, hun]
  simp [h]

theorem EscapeVersion_eq {uniLetter : Char → Bool} {v : GoStr}
    (hce : checkElem uniLetter v true = .ok ())
    (hnb : v.contains '!' = false) (hascii : ∀ c ∈ v, c.toNat < 0x80) :
    EscapeVersion uniLetter v = .ok (escLoop v) := by
  have hany := any_eq_false_of_facts hascii (contains_eq_false_forall hnb)
  rw [EscapeVersion.eq_def]
  simp only [hce, hnb, isOk_ok, Bool.not_true, Bool.or_false,
    Bool.false_eq_true, if_false, escapeString_ok hany]

theorem UnescapeVersion_escLoop {uniLetter : Char → Bool} {v : GoStr}
    (hce : checkElem uniLetter v true = .ok ())
    (hnb : v.contains '!' = false) (hascii : ∀ c ∈ v, c.toNat < 0x80) :
    UnescapeVersion uniLetter (escLoop v) = .ok v := by
  have hun : unescLoop (escLoop v) false = some v :=
    unescLoop_escLoop v hascii (contains_eq_false_forall hnb)
  rw [UnescapeVersion.eq_def, unescapeString, hun]
  simp [hce]

theorem UnescapePath_inv {uniLetter : Char → Bool} {e p : GoStr}
    (h : UnescapePath uniLetter e = .ok p) :
    unescapeString e = some p ∧ CheckPath uniLetter p = .ok () := by
  cases hu : unescapeString e with
  | none =>
    rw [UnescapePath.eq_def, hu] at h
    exact absurd h (by simp)
  | some q =>
    rw [UnescapePath.eq_def, hu] at h
    have h2 : (match CheckPath uniLetter q with
        | Except.error e1 => Except.error (UnescPathErr.invalidPath e e1)
        | Except.ok _ => Except.ok q) = Except.ok p := h
    cases hcp : CheckPath uniLetter q with
    | error er =>
      rw [hcp] at h2
      exact absurd h2 (by simp)
    | ok u =>
      rw [hcp] at h2
      simp only [Except.ok.injEq] at h2
      subst h2
      cases u
      exact ⟨rfl, hcp⟩

theorem UnescapeVersion_inv {uniLetter : Char → Bool} {e v : GoStr}
    (h : UnescapeVersion uniLetter e = .ok v) :
    unescapeString e = some v ∧ checkElem uniLetter v true = .ok () := by
  cases hu : unescapeString e with
  | none =>
    rw [UnescapeVersion.eq_def, hu] at h
    exact absurd h (by simp)
  | some q =>
    rw [UnescapeVersion.eq_def, hu] at h
    have h2 : (match checkElem uniLetter q true with
        | Except.error e1 => Except.error (UnescVersionErr.invalidVersion q e1)
        | Except.ok _ => Except.ok q) = Except.ok v := h
    cases hce : checkElem uniLetter q true with
    | error er =>
      rw [hce] at h2
      exact absurd h2 (by simp)
    | ok u =>
      rw [hce] at h2
      simp only [Except.ok.injEq] at h2
      subst h2
      cases u
      exact ⟨rfl, hce⟩

theorem unescapeString_facts {e v : GoStr} (h : unescapeString e = some v) :
    (∀ c ∈ v, c.toNat < 0x80 ∧ ¬(c = '!')) ∧ escLoop v = e ∧
      v.contains '!' = false := by
  obtain ⟨hprops, hesc⟩ := unescLoop_sound e false v h
  rw [if_neg Bool.false_ne_true] at hesc
  refine ⟨hprops, hesc, ?_⟩
  rw [← Bool.not_eq_true]
  intro hct
  have hmem : '!' ∈ v := List.elem_iff.mp hct
  exact (hprops '!' hmem).2 rfl

theorem EscapeVersion_inv {uniLetter : Char → Bool} {v e : GoStr}
    (h : EscapeVersion uniLetter v = .ok e) : escapeString v = .ok e := by
  by_cases hcond :
      ((!(checkElem uniLetter v true).isOk) || v.contains '!') = true
  · rw [EscapeVersion.eq_def, if_pos hcond] at h
    exact absurd h (by simp)
  · rw [EscapeVersion.eq_def, if_neg hcond] at h
    cases hes : escapeString v with
    | error er =>
      rw [hes] at h
      exact absurd h (by simp)
    | ok es =>
      rw [hes] at h
      have h2 : (Except.ok es : Except EscVersionErr GoStr) = .ok e := h
      injection h2 with h3
      rw [h3]

theorem facts_of_any_false {s : GoStr}
    (h : s.any (fun r => r == '!' || decide (0x80 ≤ r.toNat)) = false) :
    (∀ c ∈ s, c.toNat < 0x80) ∧ ∀ c ∈ s, ¬(c = '!') := by
  rw [← Bool.not_eq_true, List.any_eq_true] at h
  constructor
  · intro c hc
    by_contra hge
    exact h ⟨c, hc, by
      rw [Bool.or_eq_true]
      right
      rw [decide_eq_true_eq]
      omega⟩
  · intro c hc hb
    exact h ⟨c, hc, by
      rw [Bool.or_eq_true]
      left
      rw [beq_iff_eq]
      exact hb⟩

/-- Claim C1 as amended — the escaping codec round-trips: for module paths
accepted by `CheckPath`, escaping succeeds and unescaping its result returns
the original path; for version strings accepted by the file-name element
check, containing no `!` *and containing only ASCII characters*, escaping
succeeds and unescaping its result returns the original version (without the
ASCII proviso the claim fails — see the counterexample, since the file-name
check admits non-ASCII letters that `escapeString` then rejects); and in the
other direction, whenever unescaping accepts an escaped string, escaping the
unescaped result returns exactly the original escaped string. -/
theorem escape_unescape_roundtrip :
    (∀ (uniLetter : Char → Bool) (p : GoStr), CheckPath uniLetter p = .ok () →
      EscapePath uniLetter p = .ok (escLoop p) ∧
        UnescapePath uniLetter (escLoop p) = .ok p) ∧
    (∀ (uniLetter : Char → Bool) (v : GoStr),
      checkElem uniLetter v true = .ok () → v.contains '!' = false →
      (∀ c ∈ v, c.toNat < 0x80) →
      EscapeVersion uniLetter v = .ok (escLoop v) ∧
        UnescapeVersion uniLetter (escLoop v) = .ok v) ∧
    (∀ (uniLetter : Char → Bool) (e p : GoStr),
      UnescapePath uniLetter e = .ok p → EscapePath uniLetter p = .ok e) ∧
    (∀ (uniLetter : Char → Bool) (e v : GoStr),
      UnescapeVersion uniLetter e = .ok v →
        EscapeVersion uniLetter v = .ok e) := by
  refine ⟨?_, ?_, ?_, ?_⟩
  · intro uniLetter p h
    exact ⟨EscapePath_eq h, UnescapePath_escLoop h⟩
  · intro uniLetter v hce hnb hascii
    exact ⟨EscapeVersion_eq hce hnb hascii,
      UnescapeVersion_escLoop hce hnb hascii⟩
  · intro uniLetter e p h
    obtain ⟨hu, hcp⟩ := UnescapePath_inv h
    obtain ⟨hprops, hesc, hnb⟩ := unescapeString_facts hu
    rw [EscapePath_eq hcp, hesc]
  · intro uniLetter e v h
    obtain ⟨hu, hce⟩ := UnescapeVersion_inv h
    obtain ⟨hprops, hesc, hnb⟩ := unescapeString_facts hu
    rw [EscapeVersion_eq hce hnb (fun c hc => (hprops c hc).1), hesc]

/-- Counterexample to claim C1 as stated: the single-letter version `é`
passes the file-name element check (U+00E9 is a Unicode letter) and contains
no `!`, yet escaping it fails outright with the internal-inconsistency
error, so no round trip exists for it. -/
theorem escapeVersion_nonascii_cex :
    checkElem noUniLetter (str "é") true = .ok () ∧
      (str "é").contains '!' = false ∧
      EscapeVersion noUniLetter (str "é") =
        .error (.internal .internalError) := by decide

/-- Witness for `escape_unescape_roundtrip` at the spec's own example
path. -/
theorem escape_unescape_roundtrip_witness :
    EscapePath noUniLetter (str "github.com/Azure/azure-sdk-for-go") =
        .ok (str "github.com/!azure/azure-sdk-for-go") ∧
      UnescapePath noUniLetter (str "github.com/!azure/azure-sdk-for-go") =
        .ok (str "github.com/Azure/azure-sdk-for-go") := by
  have h := escape_unescape_roundtrip.1 noUniLetter
    (str "github.com/Azure/azure-sdk-for-go") (by decide)
  have he : escLoop (str "github.com/Azure/azure-sdk-for-go") =
      str "github.com/!azure/azure-sdk-for-go" := by decide
  rw [he] at h
  exact h

/-- Claim C2 — escaping is injective over valid inputs: two distinct module
paths accepted by `CheckPath` have distinct escaped forms, and two distinct
version strings accepted by the file-name element check whose escapings
succeed have distinct escaped forms. -/
theorem escape_injective :
    (∀ (uniLetter : Char → Bool) (a b : GoStr),
      CheckPath uniLetter a = .ok () → CheckPath uniLetter b = .ok () →
      a ≠ b → EscapePath uniLetter a ≠ EscapePath uniLetter b) ∧
    (∀ (uniLetter : Char → Bool) (a b ea eb : GoStr),
      checkElem uniLetter a true = .ok () →
      checkElem uniLetter b true = .ok () → a ≠ b →
      EscapeVersion uniLetter a = .ok ea →
      EscapeVersion uniLetter b = .ok eb → ea ≠ eb) := by
  constructor
  · intro uniLetter a b ha hb hne heq
    rw [EscapePath_eq ha, EscapePath_eq hb] at heq
    injection heq with h2
    have hcha := checkPath_ok_chars uniLetter a (CheckPath_ok_checkPath ha)
    have hchb := checkPath_ok_chars uniLetter b (CheckPath_ok_checkPath hb)
    have hua := unescLoop_escLoop a (fun c hc => (hcha c hc).1)
      (fun c hc => (hcha c hc).2)
    have hub := unescLoop_escLoop b (fun c hc => (hchb c hc).1)
      (fun c hc => (hchb c hc).2)
    rw [h2, hub] at hua
    injection hua with h3
    exact hne h3.symm
  · intro uniLetter a b ea eb hca hcb hne hea heb heq
    have hesa := EscapeVersion_inv hea
    have hesb := EscapeVersion_inv heb
    obtain ⟨hea2, hanya⟩ := escapeString_ok_inv hesa
    obtain ⟨heb2, hanyb⟩ := escapeString_ok_inv hesb
    obtain ⟨hasca, hbga⟩ := facts_of_any_false hanya
    obtain ⟨hascb, hbgb⟩ := facts_of_any_false hanyb
    have hua := unescLoop_escLoop a hasca hbga
    have hub := unescLoop_escLoop b hascb hbgb
    subst hea2
    subst heb2
    rw [heq, hub] at hua
    injection hua with h3
    exact hne h3.symm

/-- Witness for `escape_injective` at two distinct valid module paths. -/
theorem escape_injective_witness :
    EscapePath noUniLetter (str "example.com/abc") ≠
      EscapePath noUniLetter (str "example.com/abd") :=
  escape_injective.1 noUniLetter (str "example.com/abc")
    (str "example.com/abd") (by decide) (by decide) (by decide)

/-- The `Sort` comparator exactly as claim C8 states it: first by path in
byte-lexicographic order; on equal paths split each version at its first
`/` into a semantic-version part and a trailing tag, compare the
semantic-version parts by semantic-version precedence, and when that
comparison reports equality compare the trailing tags lexicographically. -/
def claimSortLess (mi mj : Version) : Bool :=
  if !(mi.Path == mj.Path) then lexLt mi.Path mj.Path
  else
    let (vi, fi) := splitVersionFile mi.Ver
    let (vj, fj) := splitVersionFile mj.Ver
    if semverCompare vi vj = 0 then lexLt fi fj
    else decide (semverCompare vi vj < 0)

/-- Counterexample to claim C8 as stated: on equal paths with versions
`v1.0.0+x/a` and `v1.0.0+y/b`, the semver parts are distinct strings of
equal precedence (build metadata is ignored by semantic-version
precedence), so the claim's rule falls through to the tags and orders the
pair, while the code compares the distinct semver strings by precedence
only and reports neither as smaller. -/
theorem sortLess_build_metadata_cex :
    sortLess ⟨str "a", str "v1.0.0+x/a"⟩ ⟨str "a", str "v1.0.0+y/b"⟩ =
        false ∧
      claimSortLess ⟨str "a", str "v1.0.0+x/a"⟩ ⟨str "a", str "v1.0.0+y/b"⟩ =
        true := by decide

/-- Claim C8 as amended — the `Sort` comparator orders two identifiers
first by path in byte-lexicographic order; on equal paths it splits each
version at its first `/` into a semantic-version part and a trailing tag;
identifiers with distinct semantic-version strings are ordered by
semantic-version precedence alone (ties between distinct strings leave the
pair mutually unordered, tags not consulted); and the trailing tags are
compared lexicographically exactly when the semantic-version parts are
identical strings. -/
theorem sortLess_characterization :
    (∀ mi mj : Version, ¬(mi.Path = mj.Path) →
      sortLess mi mj = lexLt mi.Path mj.Path) ∧
    (∀ mi mj : Version, mi.Path = mj.Path →
      ¬((splitVersionFile mi.Ver).1 = (splitVersionFile mj.Ver).1) →
      sortLess mi mj =
        decide (semverCompare (splitVersionFile mi.Ver).1
          (splitVersionFile mj.Ver).1 < 0)) ∧
    (∀ mi mj : Version, mi.Path = mj.Path →
      (splitVersionFile mi.Ver).1 = (splitVersionFile mj.Ver).1 →
      sortLess mi mj =
        lexLt (splitVersionFile mi.Ver).2 (splitVersionFile mj.Ver).2) := by
  refine ⟨?_, ?_, ?_⟩
  · intro mi mj hne
    rw [sortLess]
    rw [if_pos (by rw [beq_eq_false_iff_ne.mpr hne]; rfl)]
  · intro mi mj hpe hvne
    rcases hsi : splitVersionFile mi.Ver with ⟨vi, fi⟩
    rcases hsj : splitVersionFile mj.Ver with ⟨vj, fj⟩
    rw [hsi, hsj] at hvne
    simp only at hvne
    have hbe : (mi.Path == mj.Path) = true := beq_iff_eq.mpr hpe
    have hvb : (vi == vj) = false := beq_eq_false_iff_ne.mpr hvne
    simp [sortLess, hsi, hsj, hbe, hvb]
  · intro mi mj hpe hveq
    rcases hsi : splitVersionFile mi.Ver with ⟨vi, fi⟩
    rcases hsj : splitVersionFile mj.Ver with ⟨vj, fj⟩
    rw [hsi, hsj] at hveq
    simp only at hveq
    have hbe : (mi.Path == mj.Path) = true := beq_iff_eq.mpr hpe
    have hvb : (vi == vj) = true := beq_iff_eq.mpr hveq
    simp [sortLess, hsi, hsj, hbe, hvb]

/-- Witness for `sortLess_characterization`: equal paths, equal semver
parts, ordered by the trailing tags. -/
theorem sortLess_characterization_witness :
    sortLess ⟨str "a", str "v1.0.0/go.mod"⟩ ⟨str "a", str "v1.0.0/zz.mod"⟩ =
      lexLt (str "/go.mod") (str "/zz.mod") := by
  have h := sortLess_characterization.2.2
    ⟨str "a", str "v1.0.0/go.mod"⟩ ⟨str "a", str "v1.0.0/zz.mod"⟩
    (by decide) (by decide)
  exact h
